import Mathlib

/-!
Shallow embedding of the daily-newsletter pipeline (`newsletter.py`) and
proofs about it.

Conventions of the embedding:
* Python strings are Lean `String`, manipulated through their underlying
  character lists so that every operation computes in the kernel:
  `s.lower()` is `pyLower`, `s.strip()` is `pyStrip`, slicing `s[:n]` is
  `pyTake`, `s.startswith(p)` is `pyStartsWith`, `len(s)` is `pyLen`, and
  substring containment `a in b` is `List.IsInfix` on the character lists.
* Python timestamps are modelled as `Int` instants measured in days, so
  `datetime.timedelta(days = d)` is the integer `d` and comparisons carry
  over directly; the `strftime("%Y-%m-%d")` rendering of a known date is
  an abstract parameter `fmtDate : Int → String`.
* All network / parsing effects (feedparser, requests + BeautifulSoup,
  the generation service) are modelled as explicit oracle functions passed
  to the embedded pipeline stages; an `Option`/failure value models a
  raised exception at the corresponding call site.
* Python `set` objects used by `main` for the persistent seen-URL store
  are `Finset String`; the transient seen-sets inside single loops are
  accumulated `List String` values queried with `contains`.
-/

set_option autoImplicit false

namespace Newsletter

/-- Python `s.lower()`. -/
def pyLower (s : String) : String :=
  ⟨s.data.map Char.toLower⟩

/-- Python `s.strip()` (whitespace trimmed from both ends). -/
def pyStrip (s : String) : String :=
  ⟨((s.data.dropWhile Char.isWhitespace).reverse.dropWhile Char.isWhitespace).reverse⟩

/-- Python slicing `s[:n]`. -/
def pyTake (s : String) (n : Nat) : String :=
  ⟨s.data.take n⟩

/-- Python `s.startswith(pre)`. -/
def pyStartsWith (s pre : String) : Bool :=
  pre.data.isPrefixOf s.data

/-- Python `len(s)`. -/
def pyLen (s : String) : Nat :=
  s.data.length

/-- Python substring test `needle in hay` (both already strings). -/
def strContains (hay needle : String) : Bool :=
  decide (needle.data <:+: hay.data)

/-- One row of the keywords tab: keyword text plus the (possibly empty)
list of group names that restrict it. -/
structure KeywordRule where
  keyword : String
  restricted_groups : List String
deriving Repr, DecidableEq

/-- The keyword matcher shared by `fetch_rss_articles` (lines 156-160) and
`fetch_scraped_articles` (lines 278-282): `lowerText` is the already
lowercased article text; a rule matches when its lowercased keyword is a
substring and its group restriction (empty list = unrestricted, Python
`not kw["restricted_groups"]`) admits `group`. The matched rules'
keyword texts are returned. -/
def matchedKeywords (keywords : List KeywordRule) (group : String)
    (lowerText : String) : List String :=
  (keywords.filter fun kw =>
    strContains lowerText (pyLower kw.keyword)
      && (kw.restricted_groups.isEmpty || kw.restricted_groups.contains group)).map
    (fun kw => kw.keyword)

/-- An article record as built by the adapters; `title`/`summary` are the
post-summarisation fields (empty until the summariser fills them). -/
structure Article where
  source : String
  group : String
  original_title : String
  original_summary : String
  link : String
  published : String
  matched_keywords : List String
  type : String
  title : String
  summary : String
deriving Repr, DecidableEq

/-- Normalised title key of the session deduplicator (line 313):
`art["original_title"].lower().strip()[:60]`. -/
def titleKey (t : String) : String :=
  pyTake (pyStrip (pyLower t)) 60

/-- The loop body of `deduplicate` (lines 311-320), threading the two
seen-sets. -/
def dedupLoop : List Article → List String → List String → List Article
  | [], _, _ => []
  | art :: rest, seenU, seenT =>
    if seenU.contains art.link || seenT.contains (titleKey art.original_title) then
      dedupLoop rest seenU seenT
    else
      art :: dedupLoop rest (art.link :: seenU) (titleKey art.original_title :: seenT)

/-- `deduplicate` (lines 306-322): one pass over the merged list with
initially empty seen-sets. -/
def deduplicate (articles : List Article) : List Article :=
  dedupLoop articles [] []

theorem dedupLoop_sublist (l : List Article) :
    ∀ sU sT, (dedupLoop l sU sT).Sublist l := by
  induction l with
  | nil => intro sU sT; simp [dedupLoop]
  | cons art rest ih =>
    intro sU sT
    simp only [dedupLoop]
    split
    · exact (ih sU sT).cons art
    · exact (ih _ _).cons₂ art

theorem dedupLoop_link_not_seen (l : List Article) :
    ∀ sU sT a, a ∈ dedupLoop l sU sT → a.link ∉ sU := by
  induction l with
  | nil => intro sU sT a h; simp [dedupLoop] at h
  | cons art rest ih =>
    intro sU sT a h
    simp only [dedupLoop] at h
    revert h
    split
    · exact fun h => ih sU sT a h
    · rename_i hcond
      simp only [Bool.or_eq_true, not_or] at hcond
      intro h
      rcases List.mem_cons.mp h with rfl | hmem
      · exact fun hm => hcond.1 (by simpa using hm)
      · exact fun hm => ih _ _ a hmem (List.mem_cons_of_mem _ hm)

theorem dedupLoop_title_not_seen (l : List Article) :
    ∀ sU sT a, a ∈ dedupLoop l sU sT → titleKey a.original_title ∉ sT := by
  induction l with
  | nil => intro sU sT a h; simp [dedupLoop] at h
  | cons art rest ih =>
    intro sU sT a h
    simp only [dedupLoop] at h
    revert h
    split
    · exact fun h => ih sU sT a h
    · rename_i hcond
      simp only [Bool.or_eq_true, not_or] at hcond
      intro h
      rcases List.mem_cons.mp h with rfl | hmem
      · exact fun hm => hcond.2 (by simpa using hm)
      · exact fun hm => ih _ _ a hmem (List.mem_cons_of_mem _ hm)

theorem dedupLoop_links_nodup (l : List Article) :
    ∀ sU sT, ((dedupLoop l sU sT).map (fun a => a.link)).Nodup := by
  induction l with
  | nil => intro sU sT; simp [dedupLoop]
  | cons art rest ih =>
    intro sU sT
    simp only [dedupLoop]
    split
    · exact ih sU sT
    · rw [List.map_cons, List.nodup_cons]
      refine ⟨fun hmem => ?_, ih _ _⟩
      obtain ⟨b, hb, hlink⟩ := List.mem_map.mp hmem
      exact dedupLoop_link_not_seen rest _ _ b hb (hlink ▸ List.mem_cons_self _ _)

theorem dedupLoop_titles_nodup (l : List Article) :
    ∀ sU sT, ((dedupLoop l sU sT).map (fun a => titleKey a.original_title)).Nodup := by
  induction l with
  | nil => intro sU sT; simp [dedupLoop]
  | cons art rest ih =>
    intro sU sT
    simp only [dedupLoop]
    split
    · exact ih sU sT
    · rw [List.map_cons, List.nodup_cons]
      refine ⟨fun hmem => ?_, ih _ _⟩
      obtain ⟨b, hb, hkey⟩ := List.mem_map.mp hmem
      exact dedupLoop_title_not_seen rest _ _ b hb (hkey ▸ List.mem_cons_self _ _)

theorem countP_le_one_of_map_nodup {α β : Type} [DecidableEq β] (f : α → β)
    (l : List α) (h : (l.map f).Nodup) (b : β) :
    l.countP (fun a => decide (f a = b)) ≤ 1 := by
  induction l with
  | nil => simp
  | cons a tl ih =>
    rw [List.map_cons, List.nodup_cons] at h
    rw [List.countP_cons]
    by_cases hab : f a = b
    · have hz : tl.countP (fun a => decide (f a = b)) = 0 := by
        rw [List.countP_eq_zero]
        intro x hx
        simp only [decide_eq_true_eq]
        intro hxb
        exact h.1 (List.mem_map.mpr ⟨x, hx, hxb.trans hab.symm⟩)
      simp [hz, hab]
    · simpa [hab] using ih h.2

/-- A feedparser entry as consumed by `fetch_rss_articles`: the two date
fields are `None`/missing (`none`) or a parsed instant, the text fields
default to `""` when the key is absent (Python `entry.get(k, "")`). -/
structure FeedEntry where
  published_parsed : Option Int
  updated_parsed : Option Int
  title : String
  summary : String
  description : String
  link : String
deriving Repr, DecidableEq

/-- Timestamp resolution of lines 142-146: the primary `published_parsed`
field, else the `updated_parsed` fallback, else unknown. -/
def resolveTimestamp (e : FeedEntry) : Option Int :=
  match e.published_parsed with
  | some t => some t
  | none => e.updated_parsed

/-- Line 152: `entry.get("summary","") or entry.get("description","")` —
the description is used when the summary is empty/absent. -/
def entrySummary (e : FeedEntry) : String :=
  if e.summary = "" then e.description else e.summary

/-- Per-entry body of `fetch_rss_articles` (lines 141-172): age filter,
then keyword matching on the lowercased `title + " " + summary`, producing
an article only when the matched set is non-empty. -/
def processEntry (keywords : List KeywordRule) (fmtDate : Int → String)
    (source_name group : String) (cutoff : Int) (e : FeedEntry) : Option Article :=
  let published := resolveTimestamp e
  if (match published with | some t => decide (t < cutoff) | none => false) then
    none
  else
    let title := e.title
    let summary := entrySummary e
    let text := pyLower (title ++ " " ++ summary)
    let mk := matchedKeywords keywords group text
    if mk.isEmpty then none
    else some {
      source := source_name
      group := group
      original_title := title
      original_summary := pyTake summary 1000
      link := e.link
      published := match published with | some t => fmtDate t | none => "unknown"
      matched_keywords := mk
      type := "rss"
      title := ""
      summary := "" }

/-- One row of the feeds tab. -/
structure FeedCfg where
  url : String
  group : String
deriving Repr, DecidableEq

/-- Result of `feedparser.parse` for one feed: the optional feed title
(line 139 falls back to the url) and the entry list. -/
structure ParsedFeed where
  title : Option String
  entries : List FeedEntry
deriving Repr, DecidableEq

/-- `fetch_rss_articles` (lines 130-177), with `parse` the feedparser
oracle; `none` models the exception path of lines 174-175, which skips the
feed. `cutoff = now − max_age_days` as on line 131. -/
def fetch_rss_articles (parse : String → Option ParsedFeed) (feeds : List FeedCfg)
    (keywords : List KeywordRule) (fmtDate : Int → String)
    (now max_age_days : Int) : List Article :=
  let cutoff := now - max_age_days
  feeds.flatMap fun cfg =>
    match parse cfg.url with
    | none => []
    | some feed =>
      let source_name := feed.title.getD cfg.url
      feed.entries.filterMap (processEntry keywords fmtDate source_name cfg.group cutoff)

/-- Line 566: `lookback = 3 if today.weekday() == 0 else 1` (Python
weekday 0 is Monday). -/
def lookback (weekday : Nat) : Int :=
  if weekday = 0 then 3 else 1

end Newsletter

namespace Newsletter

/-- CLAIM C3 — the matcher returns exactly the keywords whose lowercase
form is a substring of the lowercased text and whose group restriction
(empty, or containing the article's group) admits the group. -/
theorem matcher_characterization (keywords : List KeywordRule) (group text : String)
    (k : String) :
    k ∈ matchedKeywords keywords group (pyLower text) ↔
      ∃ kw ∈ keywords, kw.keyword = k ∧
        (pyLower kw.keyword).data <:+: (pyLower text).data ∧
        (kw.restricted_groups = [] ∨ group ∈ kw.restricted_groups) := by
  unfold matchedKeywords strContains
  simp only [List.mem_map, List.mem_filter, Bool.and_eq_true, Bool.or_eq_true,
    decide_eq_true_eq, List.isEmpty_iff]
  constructor
  · rintro ⟨kw, ⟨hmem, hsub, hgrp⟩, rfl⟩
    refine ⟨kw, hmem, rfl, hsub, ?_⟩
    rcases hgrp with hgrp | hgrp
    · exact Or.inl hgrp
    · exact Or.inr (by simpa using hgrp)
  · rintro ⟨kw, hmem, rfl, hsub, hgrp⟩
    refine ⟨kw, ⟨hmem, hsub, ?_⟩, rfl⟩
    rcases hgrp with hgrp | hgrp
    · exact Or.inl hgrp
    · exact Or.inr (by simpa using hgrp)

/-- Witness for C3 at a concrete input: the unrestricted keyword "5G"
matches "Portugal leads in 5G rollout" in any group. -/
theorem matcher_characterization_witness :
    "5G" ∈ matchedKeywords [⟨"5G", []⟩] "Outras Fontes"
      (pyLower "Portugal leads in 5G rollout") :=
  (matcher_characterization [⟨"5G", []⟩] "Outras Fontes"
      "Portugal leads in 5G rollout" "5G").mpr
    ⟨⟨"5G", []⟩, by simp, rfl, by decide, Or.inl rfl⟩

/-- Counterexample for C4: with `a1 = (link A, title T)`,
`a2 = (link B, title T)`, `a3 = (link B, title S)`, article `a2` is dropped
by the title key while `a3`, sharing `a2`'s link and coming later, is kept —
so it is not the earlier of two link-sharing articles that survives. -/
theorem dedup_earlier_does_not_always_survive :
    (⟨"s", "g", "T", "", "B", "u", ["k"], "rss", "", ""⟩ : Article).link =
      (⟨"s", "g", "S", "", "B", "u", ["k"], "rss", "", ""⟩ : Article).link ∧
    deduplicate
        [⟨"s", "g", "T", "", "A", "u", ["k"], "rss", "", ""⟩,
         ⟨"s", "g", "T", "", "B", "u", ["k"], "rss", "", ""⟩,
         ⟨"s", "g", "S", "", "B", "u", ["k"], "rss", "", ""⟩] =
      [⟨"s", "g", "T", "", "A", "u", ["k"], "rss", "", ""⟩,
       ⟨"s", "g", "S", "", "B", "u", ["k"], "rss", "", ""⟩] ∧
    (⟨"s", "g", "T", "", "B", "u", ["k"], "rss", "", ""⟩ : Article) ∉
      deduplicate
        [⟨"s", "g", "T", "", "A", "u", ["k"], "rss", "", ""⟩,
         ⟨"s", "g", "T", "", "B", "u", ["k"], "rss", "", ""⟩,
         ⟨"s", "g", "S", "", "B", "u", ["k"], "rss", "", ""⟩] ∧
    (⟨"s", "g", "S", "", "B", "u", ["k"], "rss", "", ""⟩ : Article) ∈
      deduplicate
        [⟨"s", "g", "T", "", "A", "u", ["k"], "rss", "", ""⟩,
         ⟨"s", "g", "T", "", "B", "u", ["k"], "rss", "", ""⟩,
         ⟨"s", "g", "S", "", "B", "u", ["k"], "rss", "", ""⟩] := by
  refine ⟨rfl, by decide, by decide, by decide⟩

/-- CLAIM C4 (amended) — `deduplicate` keeps a subsequence of its input
(one left-to-right pass, first-come decisions), and among any articles
sharing an exact link or a normalised title key at most one survives. -/
theorem dedup_amended (arts : List Article) :
    (deduplicate arts).Sublist arts ∧
    (∀ u, (deduplicate arts).countP (fun a => decide (a.link = u)) ≤ 1) ∧
    (∀ s, (deduplicate arts).countP
        (fun a => decide (titleKey a.original_title = s)) ≤ 1) := by
  refine ⟨dedupLoop_sublist arts [] [], fun u => ?_, fun s => ?_⟩
  · exact countP_le_one_of_map_nodup _ _ (dedupLoop_links_nodup arts [] []) u
  · exact countP_le_one_of_map_nodup _ _ (dedupLoop_titles_nodup arts [] []) s

theorem processEntry_none_of_old (kws : List KeywordRule) (fmt : Int → String)
    (src grp : String) (cutoff : Int) (e : FeedEntry) (t : Int)
    (ht : resolveTimestamp e = some t) (hlt : t < cutoff) :
    processEntry kws fmt src grp cutoff e = none := by
  simp [processEntry, ht, hlt]

theorem processEntry_none_iff_no_match (kws : List KeywordRule) (fmt : Int → String)
    (src grp : String) (cutoff : Int) (e : FeedEntry)
    (hage : ∀ t, resolveTimestamp e = some t → ¬ t < cutoff) :
    processEntry kws fmt src grp cutoff e = none ↔
      matchedKeywords kws grp (pyLower (e.title ++ " " ++ entrySummary e)) = [] := by
  cases hres : resolveTimestamp e with
  | none =>
    by_cases hmk : matchedKeywords kws grp (pyLower (e.title ++ " " ++ entrySummary e)) = []
    · simp [processEntry, hres, hmk]
    · simp [processEntry, hres, hmk, List.isEmpty_iff]
  | some t =>
    have hlt := hage t hres
    by_cases hmk : matchedKeywords kws grp (pyLower (e.title ++ " " ++ entrySummary e)) = []
    · simp [processEntry, hres, hlt, hmk]
    · simp [processEntry, hres, hlt, hmk, List.isEmpty_iff]

theorem processEntry_unknown_published (kws : List KeywordRule) (fmt : Int → String)
    (src grp : String) (cutoff : Int) (e : FeedEntry)
    (hnone : resolveTimestamp e = none) (a : Article)
    (h : processEntry kws fmt src grp cutoff e = some a) : a.published = "unknown" := by
  simp only [processEntry, hnone] at h
  by_cases hmk : matchedKeywords kws grp (pyLower (e.title ++ " " ++ entrySummary e)) = []
  · simp [hmk] at h
  · simp [hmk, List.isEmpty_iff] at h
    rw [← h]

/-- CLAIM C7 — an entry is dropped by age exactly when its resolved
timestamp is known and strictly older than the cutoff: a known old entry
yields no article; a known recent entry is filtered only by the matcher;
an entry with no resolvable timestamp is never dropped by age and any
article built from it carries `published = "unknown"`. -/
theorem feed_age_filter (kws : List KeywordRule) (fmt : Int → String)
    (src grp : String) (cutoff : Int) (e : FeedEntry) :
    (∀ t, resolveTimestamp e = some t → t < cutoff →
      processEntry kws fmt src grp cutoff e = none) ∧
    (∀ t, resolveTimestamp e = some t → ¬ t < cutoff →
      (processEntry kws fmt src grp cutoff e = none ↔
        matchedKeywords kws grp (pyLower (e.title ++ " " ++ entrySummary e)) = [])) ∧
    (resolveTimestamp e = none →
      (processEntry kws fmt src grp cutoff e = none ↔
        matchedKeywords kws grp (pyLower (e.title ++ " " ++ entrySummary e)) = []) ∧
      ∀ a, processEntry kws fmt src grp cutoff e = some a →
        a.published = "unknown") := by
  refine ⟨fun t ht hlt => processEntry_none_of_old kws fmt src grp cutoff e t ht hlt,
    fun t ht hlt => processEntry_none_iff_no_match kws fmt src grp cutoff e ?_,
    fun hnone => ⟨processEntry_none_iff_no_match kws fmt src grp cutoff e ?_,
      fun a h => processEntry_unknown_published kws fmt src grp cutoff e hnone a h⟩⟩
  · intro u hu
    rw [ht] at hu
    cases hu
    exact hlt
  · intro u hu
    rw [hnone] at hu
    cases hu

/-- Witness for C7 at the spec's scenario (`now = 100`, `maxAgeDays = 1`,
so `cutoff = 99`): a matching entry published at day 95 is excluded, the
identical entry with no dates is included and marked "unknown". -/
theorem feed_age_filter_witness :
    processEntry [⟨"5G", []⟩] (fun t => toString t) "s" "g" 99
      ⟨some 95, none, "5G news", "x", "", "l"⟩ = none ∧
    processEntry [⟨"5G", []⟩] (fun t => toString t) "s" "g" 99
      ⟨none, none, "5G news", "x", "", "l"⟩ ≠ none ∧
    (∀ a, processEntry [⟨"5G", []⟩] (fun t => toString t) "s" "g" 99
      ⟨none, none, "5G news", "x", "", "l"⟩ = some a → a.published = "unknown") := by
  refine ⟨(feed_age_filter [⟨"5G", []⟩] (fun t => toString t) "s" "g" 99
      ⟨some 95, none, "5G news", "x", "", "l"⟩).1 95 rfl (by decide), fun h => ?_,
    ((feed_age_filter [⟨"5G", []⟩] (fun t => toString t) "s" "g" 99
      ⟨none, none, "5G news", "x", "", "l"⟩).2.2 rfl).2⟩
  exact absurd (((feed_age_filter [⟨"5G", []⟩] (fun t => toString t) "s" "g" 99
      ⟨none, none, "5G news", "x", "", "l"⟩).2.2 rfl).1.mp h) (by decide)

/-- CLAIM C10 — the recency window is 3 days on Monday (Python weekday 0)
and 1 day otherwise, and a Monday run admits an entry two days old that a
non-Monday cutoff would drop. -/
theorem monday_lookback_widens (kws : List KeywordRule) (fmt : Int → String)
    (src grp : String) (now : Int) (e : FeedEntry) :
    lookback 0 = 3 ∧ (∀ w, w ≠ 0 → lookback w = 1) ∧
    (resolveTimestamp e = some (now - 2) →
      (processEntry kws fmt src grp (now - lookback 0) e = none ↔
        matchedKeywords kws grp (pyLower (e.title ++ " " ++ entrySummary e)) = []) ∧
      processEntry kws fmt src grp (now - lookback 1) e = none) := by
  refine ⟨rfl, fun w hw => by simp [lookback, hw], fun ht => ⟨?_, ?_⟩⟩
  · refine processEntry_none_iff_no_match kws fmt src grp _ e ?_
    intro u hu
    rw [ht] at hu
    cases hu
    rw [show lookback 0 = 3 from rfl]
    omega
  · refine processEntry_none_of_old kws fmt src grp _ e (now - 2) ht ?_
    rw [show lookback 1 = 1 from rfl]
    omega

/-- Witness for C10: with `now = 100` an entry published at day 98 is
dropped under the weekday window but kept under the Monday window. -/
theorem monday_lookback_widens_witness :
    processEntry [⟨"5G", []⟩] (fun t => toString t) "s" "g" (100 - lookback 1)
      ⟨some 98, none, "5G news", "x", "", "l"⟩ = none ∧
    processEntry [⟨"5G", []⟩] (fun t => toString t) "s" "g" (100 - lookback 0)
      ⟨some 98, none, "5G news", "x", "", "l"⟩ ≠ none := by
  refine ⟨((monday_lookback_widens _ _ _ _ 100 _).2.2 (by decide)).2, fun h => ?_⟩
  exact absurd (((monday_lookback_widens _ _ _ _ 100 _).2.2 (by decide)).1.mp h)
    (by decide)

end Newsletter

namespace Newsletter

/-- An anchor element produced by `soup.select`: its stripped visible text
(`tag.get_text(strip=True)`) and its `href` attribute (`""` when absent). -/
structure Anchor where
  text : String
  href : String
deriving Repr, DecidableEq

/-- The collection pass of `get_article_links` (lines 196-207): for each
comma-separated selector in order its anchors, discarding anchors whose
href is empty, starts with `#`, or starts with `javascript`; the rest are
resolved with `urljoin` against `scheme://netloc` of the index url and
kept only when the resolved host equals the index host. `urljoin` and the
`urlparse` projections are oracle parameters (the url library is external
to the repository). -/
def candidateLinks (schemeF netlocF : String → String)
    (urljoinF : String → String → String) (index_url : String)
    (selected : List (List Anchor)) : List (String × String) :=
  let base_domain := schemeF index_url ++ "://" ++ netlocF index_url
  selected.flatMap fun tags =>
    tags.filterMap fun tag =>
      if tag.href == "" || pyStartsWith tag.href "#"
          || pyStartsWith tag.href "javascript" then
        none
      else
        let full_url := urljoinF base_domain tag.href
        if netlocF full_url == netlocF index_url then some (tag.text, full_url)
        else none

/-- The uniqueness pass of `get_article_links` (lines 209-214): keep a
link when its resolved url is unseen and its text is longer than 5
characters, recording the url only in that case. -/
def uniqueLinks : List (String × String) → List String → List (String × String)
  | [], _ => []
  | (title, url) :: rest, seen =>
    if !(seen.contains url) && decide (5 < pyLen title) then
      (title, url) :: uniqueLinks rest (url :: seen)
    else
      uniqueLinks rest seen

/-- `get_article_links` (lines 189-221): candidates, uniqueness pass, and
the `[:30]` cap of line 217. -/
def get_article_links (schemeF netlocF : String → String)
    (urljoinF : String → String → String) (index_url : String)
    (selected : List (List Anchor)) : List (String × String) :=
  (uniqueLinks (candidateLinks schemeF netlocF urljoinF index_url selected) []).take 30

theorem uniqueLinks_sublist (l : List (String × String)) :
    ∀ seen, (uniqueLinks l seen).Sublist l := by
  induction l with
  | nil => intro seen; simp [uniqueLinks]
  | cons p rest ih =>
    intro seen
    obtain ⟨title, url⟩ := p
    simp only [uniqueLinks]
    split
    · exact (ih _).cons₂ _
    · exact (ih _).cons _

theorem uniqueLinks_text_long (l : List (String × String)) :
    ∀ seen p, p ∈ uniqueLinks l seen → 5 < pyLen p.1 := by
  induction l with
  | nil => intro seen p h; simp [uniqueLinks] at h
  | cons q rest ih =>
    intro seen p h
    obtain ⟨title, url⟩ := q
    simp only [uniqueLinks] at h
    revert h
    split
    · rename_i hcond
      simp only [Bool.and_eq_true, decide_eq_true_eq] at hcond
      intro h
      rcases List.mem_cons.mp h with rfl | hmem
      · exact hcond.2
      · exact ih _ p hmem
    · exact fun h => ih _ p h

end Newsletter

namespace Newsletter

theorem uniqueLinks_url_not_seen (l : List (String × String)) :
    ∀ seen p, p ∈ uniqueLinks l seen → p.2 ∉ seen := by
  induction l with
  | nil => intro seen p h; simp [uniqueLinks] at h
  | cons q rest ih =>
    intro seen p h
    obtain ⟨title, url⟩ := q
    simp only [uniqueLinks] at h
    revert h
    split
    · rename_i hcond
      simp only [Bool.and_eq_true, Bool.not_eq_true'] at hcond
      intro h
      rcases List.mem_cons.mp h with rfl | hmem
      · intro hm
        exact absurd hm (by simpa using hcond.1)
      · exact fun hm => ih _ p hmem (List.mem_cons_of_mem _ hm)
    · exact fun h => ih _ p h

theorem uniqueLinks_urls_nodup (l : List (String × String)) :
    ∀ seen, ((uniqueLinks l seen).map Prod.snd).Nodup := by
  induction l with
  | nil => intro seen; simp [uniqueLinks]
  | cons q rest ih =>
    intro seen
    obtain ⟨title, url⟩ := q
    simp only [uniqueLinks]
    split
    · rw [List.map_cons, List.nodup_cons]
      refine ⟨fun hmem => ?_, ih _⟩
      obtain ⟨b, hb, hurl⟩ := List.mem_map.mp hmem
      exact uniqueLinks_url_not_seen rest _ b hb (hurl ▸ List.mem_cons_self _ _)
    · exact ih _

/-- CLAIM C8 — link discovery returns at most 30 links, a subsequence (in
first-appearance order) of the same-host candidates, with pairwise
distinct resolved urls, each with visible text longer than 5 characters,
each resolved-host-equal to the index host, and each arising from an
anchor of one of the selector result sets whose href is non-empty and
starts with neither `#` nor `javascript`. -/
theorem link_discovery_props (schemeF netlocF : String → String)
    (urljoinF : String → String → String) (index_url : String)
    (selected : List (List Anchor)) :
    (get_article_links schemeF netlocF urljoinF index_url selected).length ≤ 30 ∧
    (get_article_links schemeF netlocF urljoinF index_url selected).Sublist
      (candidateLinks schemeF netlocF urljoinF index_url selected) ∧
    ((get_article_links schemeF netlocF urljoinF index_url selected).map
      Prod.snd).Nodup ∧
    ∀ p ∈ get_article_links schemeF netlocF urljoinF index_url selected,
      5 < pyLen p.1 ∧ netlocF p.2 = netlocF index_url ∧
      ∃ tags ∈ selected, ∃ tag ∈ tags, p.1 = tag.text ∧
        p.2 = urljoinF (schemeF index_url ++ "://" ++ netlocF index_url) tag.href ∧
        tag.href ≠ "" ∧ pyStartsWith tag.href "#" = false ∧
        pyStartsWith tag.href "javascript" = false := by
  have hsub : (get_article_links schemeF netlocF urljoinF index_url selected).Sublist
      (uniqueLinks (candidateLinks schemeF netlocF urljoinF index_url selected) []) :=
    List.take_sublist _ _
  have hsub2 : (get_article_links schemeF netlocF urljoinF index_url selected).Sublist
      (candidateLinks schemeF netlocF urljoinF index_url selected) :=
    hsub.trans (uniqueLinks_sublist _ _)
  refine ⟨?_, hsub2, ?_, ?_⟩
  · exact List.length_take_le _ _
  · exact (hsub.map Prod.snd).nodup (uniqueLinks_urls_nodup _ _)
  · intro p hp
    have hpu := hsub.subset hp
    have hpc := hsub2.subset hp
    refine ⟨uniqueLinks_text_long _ _ p hpu, ?_⟩
    simp only [candidateLinks, List.mem_flatMap, List.mem_filterMap] at hpc
    obtain ⟨tags, htags, tag, htag, hf⟩ := hpc
    by_cases h1 : (tag.href == "" || pyStartsWith tag.href "#"
        || pyStartsWith tag.href "javascript") = true
    · rw [if_pos h1] at hf
      cases hf
    · rw [if_neg h1] at hf
      simp only [Bool.or_eq_true, beq_iff_eq, not_or, Bool.not_eq_true] at h1
      by_cases h2 : (netlocF (urljoinF (schemeF index_url ++ "://" ++ netlocF index_url)
          tag.href) == netlocF index_url) = true
      · rw [if_pos h2] at hf
        obtain rfl := Option.some.inj hf
        refine ⟨by simpa using h2, tags, htags, tag, htag, rfl, rfl,
          h1.1.1, h1.1.2, h1.2⟩
      · rw [if_neg h2] at hf
        cases hf

/-- Witness for C8 at a concrete index page with one long-text same-host
anchor. -/
theorem link_discovery_props_witness :
    (get_article_links (fun _ => "https") (fun _ => "example.com")
      (fun _ h => h) "https://example.com"
      [[⟨"a long headline", "https://example.com/a"⟩]]).length ≤ 30 :=
  (link_discovery_props (fun _ => "https") (fun _ => "example.com")
    (fun _ h => h) "https://example.com"
    [[⟨"a long headline", "https://example.com/a"⟩]]).1

end Newsletter

namespace Newsletter

/-- Outcome of fetching and parsing one content page in `scrape_article`:
`fail` models a raised request/parse exception (caught on line 245);
otherwise `containers` lists, in the order of the fixed selector cascade
of line 234, the extracted texts of the containers that matched, and
`paragraphs` the texts of all `p` elements. -/
inductive PageFetch where
  | fail : PageFetch
  | page (containers : List String) (paragraphs : List String) : PageFetch
deriving Repr, DecidableEq

/-- `scrape_article` (lines 224-246): on failure `""`; otherwise the first
container text longer than 200 characters, else the space-joined paragraph
texts, capped at 2000 characters. -/
def scrape_article (fetch : String → PageFetch) (url : String) : String :=
  match fetch url with
  | .fail => ""
  | .page containers paragraphs =>
    match containers.find? (fun t => decide (200 < pyLen t)) with
    | some t => pyTake t 2000
    | none => pyTake (String.intercalate " " paragraphs) 2000

/-- One row of the scrape tab. -/
structure ScrapeCfg where
  name : String
  url : String
  selector : String
  group : String
deriving Repr, DecidableEq

/-- Per-target loop of `fetch_scraped_articles` (lines 268-296): each
discovered link is skipped when its url was already visited this run;
otherwise the url is recorded, the body text extracted, articles with
empty text dropped (line 274-275), then the matcher runs on the lowercased
`link_title + " " + text` and a matching article is emitted. -/
def scrapeLinksLoop (fetch : String → PageFetch) (keywords : List KeywordRule)
    (source_name group : String) :
    List (String × String) → List String → List Article
  | [], _ => []
  | (link_title, article_url) :: rest, seen =>
    if seen.contains article_url then
      scrapeLinksLoop fetch keywords source_name group rest seen
    else
      let text := scrape_article fetch article_url
      if text = "" then
        scrapeLinksLoop fetch keywords source_name group rest (article_url :: seen)
      else
        let mk := matchedKeywords keywords group (pyLower (link_title ++ " " ++ text))
        if mk.isEmpty then
          scrapeLinksLoop fetch keywords source_name group rest (article_url :: seen)
        else
          { source := source_name
            group := group
            original_title := if link_title = "" then article_url else link_title
            original_summary := pyTake text 1000
            link := article_url
            published := "unknown"
            matched_keywords := mk
            type := "scraped"
            title := ""
            summary := "" } ::
          scrapeLinksLoop fetch keywords source_name group rest (article_url :: seen)

/-- The urls recorded by one target's loop (line 271 adds every
first-visited url, regardless of the later text / match outcome). -/
def seenAfter : List (String × String) → List String → List String
  | [], seen => seen
  | (_, article_url) :: rest, seen =>
    if seen.contains article_url then seenAfter rest seen
    else seenAfter rest (article_url :: seen)

/-- `fetch_scraped_articles` (lines 249-299): the per-target loops share
one `seen_urls` set across all targets; `linksOf` is the result of
`get_article_links` for a target (an empty list when the index fetch failed,
line 221). -/
def fetch_scraped_articles (linksOf : ScrapeCfg → List (String × String))
    (fetch : String → PageFetch) (scrape_config : List ScrapeCfg)
    (keywords : List KeywordRule) : List Article :=
  (scrape_config.foldl (fun acc cfg =>
    (acc.1 ++ scrapeLinksLoop fetch keywords cfg.name cfg.group (linksOf cfg) acc.2,
     seenAfter (linksOf cfg) acc.2)) (([], []) : List Article × List String)).1

theorem scrapeLinksLoop_mem (fetch : String → PageFetch)
    (keywords : List KeywordRule) (src grp : String) :
    ∀ links seen a, a ∈ scrapeLinksLoop fetch keywords src grp links seen →
      scrape_article fetch a.link ≠ "" ∧ a.matched_keywords ≠ [] := by
  intro links
  induction links with
  | nil => intro seen a h; simp [scrapeLinksLoop] at h
  | cons q rest ih =>
    intro seen a h
    obtain ⟨link_title, article_url⟩ := q
    simp only [scrapeLinksLoop] at h
    revert h
    split
    · exact fun h => ih _ a h
    · split
      · exact fun h => ih _ a h
      · rename_i htext
        split
        · exact fun h => ih _ a h
        · rename_i hmk
          intro h
          rcases List.mem_cons.mp h with rfl | hmem
          · simp only [List.isEmpty_iff] at hmk
            exact ⟨htext, hmk⟩
          · exact ih _ a hmem

theorem fetch_scraped_mem (linksOf : ScrapeCfg → List (String × String))
    (fetch : String → PageFetch) (scrape_config : List ScrapeCfg)
    (keywords : List KeywordRule) :
    ∀ a ∈ fetch_scraped_articles linksOf fetch scrape_config keywords,
      scrape_article fetch a.link ≠ "" ∧ a.matched_keywords ≠ [] := by
  suffices h : ∀ (cfgs : List ScrapeCfg) (acc : List Article × List String),
      (∀ a ∈ acc.1, scrape_article fetch a.link ≠ "" ∧ a.matched_keywords ≠ []) →
      ∀ a ∈ (cfgs.foldl (fun acc cfg =>
        (acc.1 ++ scrapeLinksLoop fetch keywords cfg.name cfg.group (linksOf cfg) acc.2,
         seenAfter (linksOf cfg) acc.2)) acc).1,
        scrape_article fetch a.link ≠ "" ∧ a.matched_keywords ≠ [] by
    exact h scrape_config ([], []) (by simp)
  intro cfgs
  induction cfgs with
  | nil => intro acc hacc a ha; exact hacc a ha
  | cons cfg rest ih =>
    intro acc hacc a ha
    rw [List.foldl_cons] at ha
    refine ih _ ?_ a ha
    intro b hb
    rcases List.mem_append.mp hb with hb | hb
    · exact hacc b hb
    · exact scrapeLinksLoop_mem fetch keywords cfg.name cfg.group _ _ b hb

end Newsletter

namespace Newsletter

/-- Counterexample for C2: a link whose content fetch fails and whose link
text alone matches the keyword "5G" is nevertheless absent from the scrape
adapter's output — lines 274-275 drop every article with empty extracted
text. -/
theorem scrape_failed_extraction_not_retained :
    matchedKeywords [⟨"5G", []⟩] "g" (pyLower ("Portugal 5G rollout" ++ " " ++ "")) ≠ [] ∧
    scrape_article (fun _ => PageFetch.fail) "http://x/a" = "" ∧
    fetch_scraped_articles (fun _ => [("Portugal 5G rollout", "http://x/a")])
      (fun _ => PageFetch.fail) [⟨"n", "http://x", "a", "g"⟩] [⟨"5G", []⟩] = [] :=
  ⟨by decide, rfl, by decide⟩

/-- CLAIM C2 (amended) — a content-page fetch/parse failure yields empty
body text, and an article whose extracted body text is empty is dropped
from the scrape adapter's output rather than retained via title-only
matching: every emitted scraped article has non-empty extracted text. -/
theorem scrape_empty_text_dropped :
    (∀ (fetch : String → PageFetch) url, fetch url = PageFetch.fail →
      scrape_article fetch url = "") ∧
    (∀ linksOf fetch cfgs kws a,
      a ∈ fetch_scraped_articles linksOf fetch cfgs kws →
      scrape_article fetch a.link ≠ "") := by
  refine ⟨fun fetch url h => by simp [scrape_article, h], ?_⟩
  intro linksOf fetch cfgs kws a ha
  exact (fetch_scraped_mem linksOf fetch cfgs kws a ha).1

/-- Witness for C2 (amended): a failed fetch extracts `""`, and a
concretely emitted article has non-empty extracted text. -/
theorem scrape_empty_text_dropped_witness :
    scrape_article (fun _ => PageFetch.fail) "u" = "" ∧
    scrape_article (fun _ => PageFetch.page [] ["some 5G body"])
      (⟨"n", "g", "Big 5G title", "some 5G body", "u", "unknown", ["5G"],
        "scraped", "", ""⟩ : Article).link ≠ "" :=
  ⟨scrape_empty_text_dropped.1 (fun _ => PageFetch.fail) "u" rfl,
   scrape_empty_text_dropped.2 (fun _ => [("Big 5G title", "u")])
     (fun _ => PageFetch.page [] ["some 5G body"]) [⟨"n", "iu", "a", "g"⟩]
     [⟨"5G", []⟩] _ (by decide)⟩

theorem processEntry_matched_nonempty (kws : List KeywordRule)
    (fmt : Int → String) (src grp : String) (cutoff : Int) (e : FeedEntry)
    (a : Article) (h : processEntry kws fmt src grp cutoff e = some a) :
    a.matched_keywords ≠ [] := by
  simp only [processEntry] at h
  split at h
  · cases h
  · split at h
    · cases h
    · rename_i hmk
      obtain rfl := Option.some.inj h
      exact fun hEq => hmk (by simp_all)

theorem fetch_rss_mem (parse : String → Option ParsedFeed) (feeds : List FeedCfg)
    (kws : List KeywordRule) (fmt : Int → String) (now days : Int) :
    ∀ a ∈ fetch_rss_articles parse feeds kws fmt now days,
      a.matched_keywords ≠ [] := by
  intro a ha
  simp only [fetch_rss_articles, List.mem_flatMap] at ha
  obtain ⟨cfg, hcfg, ha⟩ := ha
  revert ha
  cases hp : parse cfg.url with
  | none => intro ha; simp at ha
  | some feed =>
    intro ha
    simp only [List.mem_filterMap] at ha
    obtain ⟨e, he, hpe⟩ := ha
    exact processEntry_matched_nonempty kws fmt _ cfg.group _ e a hpe

/-- CLAIM C9 — every article emitted by the feed adapter or the scrape
adapter carries a non-empty matched_keywords list, so no unmatched article
ever reaches the deduplicator. -/
theorem adapters_matched_nonempty :
    (∀ parse feeds kws fmt now days a,
      a ∈ fetch_rss_articles parse feeds kws fmt now days →
      a.matched_keywords ≠ []) ∧
    (∀ linksOf fetch cfgs kws a,
      a ∈ fetch_scraped_articles linksOf fetch cfgs kws →
      a.matched_keywords ≠ []) :=
  ⟨fun parse feeds kws fmt now days a ha =>
    fetch_rss_mem parse feeds kws fmt now days a ha,
   fun linksOf fetch cfgs kws a ha =>
    (fetch_scraped_mem linksOf fetch cfgs kws a ha).2⟩

/-- Witness for C9 on concrete runs of both adapters. -/
theorem adapters_matched_nonempty_witness :
    (⟨"Feed", "g", "5G news", "x", "l", "d", ["5G"], "rss", "", ""⟩ :
      Article).matched_keywords ≠ [] ∧
    (⟨"n", "g", "Big 5G title", "some 5G body", "u", "unknown", ["5G"],
      "scraped", "", ""⟩ : Article).matched_keywords ≠ [] :=
  ⟨adapters_matched_nonempty.1
    (fun _ => some ⟨some "Feed", [⟨some 95, none, "5G news", "x", "", "l"⟩]⟩)
    [⟨"u0", "g"⟩] [⟨"5G", []⟩] (fun _ => "d") 100 10 _ (by decide),
   adapters_matched_nonempty.2 (fun _ => [("Big 5G title", "u")])
    (fun _ => PageFetch.page [] ["some 5G body"]) [⟨"n", "iu", "a", "g"⟩]
    [⟨"5G", []⟩] _ (by decide)⟩

end Newsletter

namespace Newsletter

/-- The merge input assembled by `main` (lines 578-583): scraped
candidates whose link is in the loaded seen set are removed (line 578),
RSS candidates are passed through unfiltered, and the concatenation is
what `deduplicate` receives (line 583). -/
def mergeInput (rss scraped : List Article) (seen : Finset String) : List Article :=
  rss ++ scraped.filter (fun a => decide (a.link ∉ seen))

/-- CLAIM C5 — an article enters the pre-deduplication stream exactly when
it is an RSS candidate (never filtered against the loaded set) or a
scraped candidate whose link is not in the loaded Seen-Store set. -/
theorem seen_prefilter (rss scraped : List Article) (seen : Finset String)
    (a : Article) :
    a ∈ mergeInput rss scraped seen ↔
      a ∈ rss ∨ (a ∈ scraped ∧ a.link ∉ seen) := by
  simp [mergeInput, List.mem_append, List.mem_filter]

/-- Witness for C5: an RSS article with an already-seen link stays in the
stream; a scraped article with an already-seen link does not. -/
theorem seen_prefilter_witness :
    (⟨"s", "g", "tA", "", "lA", "u", ["k"], "rss", "", ""⟩ : Article) ∈
      mergeInput [⟨"s", "g", "tA", "", "lA", "u", ["k"], "rss", "", ""⟩]
        [⟨"s", "g", "tB", "", "lB", "u", ["k"], "scraped", "", ""⟩]
        ({"lA", "lB"} : Finset String) ∧
    (⟨"s", "g", "tB", "", "lB", "u", ["k"], "scraped", "", ""⟩ : Article) ∉
      mergeInput [⟨"s", "g", "tA", "", "lA", "u", ["k"], "rss", "", ""⟩]
        [⟨"s", "g", "tB", "", "lB", "u", ["k"], "scraped", "", ""⟩]
        ({"lA", "lB"} : Finset String) := by
  constructor
  · exact (seen_prefilter _ _ _ _).mpr (Or.inl (by decide))
  · intro h
    rcases (seen_prefilter _ _ _ _).mp h with h1 | h2
    · exact absurd h1 (by decide)
    · exact h2.2 (by decide)

/-- The Seen-Store update of `main` (lines 616-619): union of the loaded
set with the delivered links, truncated — when larger than 5000 — to the
last 5000 entries of its ascending sort (`sorted(new_url_set)[-5000:]`). -/
def updateSeen (loaded : Finset String) (delivered : List Article) : Finset String :=
  let new_url_set := loaded ∪ (delivered.map (fun a => a.link)).toFinset
  if 5000 < new_url_set.card then
    ((new_url_set.sort (· ≤ ·)).drop (new_url_set.card - 5000)).toFinset
  else new_url_set

/-- CLAIM C6 — the written set is the union `loaded ∪ delivered-links`
when that union has at most 5000 entries, and otherwise a 5000-entry
subset of it; in all cases the stored set has at most 5000 entries. -/
theorem seen_store_update (loaded : Finset String) (delivered : List Article)
    (u : Finset String)
    (hu : u = loaded ∪ (delivered.map (fun a => a.link)).toFinset) :
    (u.card ≤ 5000 → updateSeen loaded delivered = u) ∧
    (5000 < u.card → (updateSeen loaded delivered).card = 5000 ∧
      updateSeen loaded delivered ⊆ u) ∧
    (updateSeen loaded delivered).card ≤ 5000 := by
  subst hu
  have hnd : ((((loaded ∪ (delivered.map (fun a => a.link)).toFinset).sort (· ≤ ·)).drop
      ((loaded ∪ (delivered.map (fun a => a.link)).toFinset).card - 5000))).Nodup :=
    (List.drop_sublist _ _).nodup (Finset.sort_nodup _ _)
  refine ⟨fun hle => ?_, fun hlt => ⟨?_, ?_⟩, ?_⟩
  · simp only [updateSeen]
    rw [if_neg (not_lt.mpr hle)]
  · simp only [updateSeen]
    rw [if_pos hlt]
    rw [List.toFinset_card_of_nodup hnd, List.length_drop, Finset.length_sort]
    omega
  · simp only [updateSeen]
    rw [if_pos hlt]
    intro x hx
    rw [List.mem_toFinset] at hx
    exact (Finset.mem_sort _).mp ((List.drop_sublist _ _).subset hx)
  · simp only [updateSeen]
    by_cases hc : 5000 < (loaded ∪ (delivered.map (fun a => a.link)).toFinset).card
    · rw [if_pos hc]
      rw [List.toFinset_card_of_nodup hnd, List.length_drop, Finset.length_sort]
      omega
    · rw [if_neg hc]
      exact not_lt.mp hc

/-- Witness for C6 on a small store: the union fits the bound and is
written unchanged. -/
theorem seen_store_update_witness :
    updateSeen ({"a"} : Finset String)
        [⟨"s", "g", "t", "", "b", "u", ["k"], "rss", "", ""⟩] =
      ({"a"} : Finset String) ∪
        (([⟨"s", "g", "t", "", "b", "u", ["k"], "rss", "", ""⟩] :
          List Article).map (fun a => a.link)).toFinset :=
  (seen_store_update ({"a"} : Finset String)
    [⟨"s", "g", "t", "", "b", "u", ["k"], "rss", "", ""⟩] _ rfl).1 (by decide)

end Newsletter

namespace Newsletter

/-- One element of the parsed JSON array of a batch response; `none`
models a missing `"title"`/`"summary"` key (Python `s.get(k, default)`). -/
structure SummaryItem where
  title : Option String
  summary : Option String
deriving Repr, DecidableEq

/-- Behaviour of the generation service across the summariser's three call
sites: `batchResp bi` is the parsed JSON array of batch `bi`'s request
(`none` = network error or unparsable/non-array response, the exception
caught on line 400), `itemRetry bi j` the response text of the
supplementary regeneration issued inside the assignment loop (line 389,
`none` = raised), and `exceptRetry bi j` the response text of the
degraded per-article regeneration of the except path (line 405,
`none` = raised). -/
structure GenService where
  batchResp : Nat → Option (List SummaryItem)
  itemRetry : Nat → Nat → Option String
  exceptRetry : Nat → Nat → Option String

/-- Python `summaries[j] if j < len(summaries) else {}` (line 383). -/
def sGet (summaries : List SummaryItem) (j : Nat) : SummaryItem :=
  summaries.getD j ⟨none, none⟩

/-- The assignment loop of lines 382-398 from position `j` on. On success
returns the articles appended by the loop; on a raised individual
regeneration returns `Except.error k` where `k` counts the articles of
this suffix already appended to `summarised` before the exception
escaped to the handler of line 400. Each article's `title` is
`s.get("title", original_title)`; a present summary of at least 20
characters is kept, otherwise the item regeneration's text is used. -/
def runTryLoop (svc : GenService) (bi : Nat) (summaries : List SummaryItem) :
    Nat → List Article → Except Nat (List Article)
  | _, [] => Except.ok []
  | j, art :: rest =>
    let s := sGet summaries j
    let title := s.title.getD art.original_title
    let sum0 := s.summary.getD ""
    if sum0 == "" || decide (pyLen sum0 < 20) then
      match svc.itemRetry bi j with
      | none => Except.error 0
      | some txt =>
        match runTryLoop svc bi summaries (j + 1) rest with
        | Except.ok out => Except.ok ({art with title := title, summary := txt} :: out)
        | Except.error k => Except.error (k + 1)
    else
      match runTryLoop svc bi summaries (j + 1) rest with
      | Except.ok out => Except.ok ({art with title := title, summary := sum0} :: out)
      | Except.error k => Except.error (k + 1)

/-- Final state of one article after the except path of lines 402-419:
the original title, and the regeneration text or the sentinel summary. -/
def exceptFinal (svc : GenService) (bi j : Nat) (art : Article) : Article :=
  match svc.exceptRetry bi j with
  | some txt => { art with title := art.original_title, summary := txt }
  | none =>
    { art with
      title := art.original_title
      summary := "[Resumo não disponível]" }

/-- One batch of `summarise_articles` (lines 337-419). On a batch-level
failure every article goes through the except path. On a parsed response,
the assignment loop runs; if an individual regeneration raises after `k`
articles of the batch were already appended, those `k` list entries alias
the article dicts later mutated by the except handler, which then appends
the whole batch again — hence `fin.take k ++ fin`. -/
def processBatch (svc : GenService) (bi : Nat) (batch : List Article) : List Article :=
  match svc.batchResp bi with
  | none => batch.mapIdx (fun j art => exceptFinal svc bi j art)
  | some summaries =>
    match runTryLoop svc bi summaries 0 batch with
    | Except.ok out => out
    | Except.error k =>
      let fin := batch.mapIdx (fun j art => exceptFinal svc bi j art)
      fin.take k ++ fin

/-- The batching of line 337, `for i in range(0, len(articles), 10)` with
`batch = articles[i : i + 10]`, indexed by batch number. -/
def chunks10 (l : List Article) : List (List Article) :=
  (List.range ((l.length + 9) / 10)).map (fun k => (l.drop (10 * k)).take 10)

/-- `summarise_articles` (lines 329-421) against a service behaviour:
the concatenation of the per-batch results in batch order. -/
def summarise_articles (svc : GenService) (articles : List Article) : List Article :=
  ((chunks10 articles).mapIdx (fun bi batch => processBatch svc bi batch)).flatten

end Newsletter

namespace Newsletter

/-- CLAIM C1 — evaluation at the failing input. With a well-formed parsed
response for a batch of two articles whose second summary is shorter than
20 characters, and with the individual regeneration call for that article
raising, `summarise_articles` appends the first article in the assignment
loop and then the batch-failure handler appends the whole batch again:
two input articles yield three output entries, the first input twice, so
the output is not the input list summarised exactly once in order. -/
theorem summariser_duplicates_on_item_retry_failure :
    summarise_articles
        ⟨fun _ => some [⟨some "T1", some "a sufficiently long summary ok"⟩,
                        ⟨some "T2", some "short"⟩],
         fun _ _ => none, fun _ _ => none⟩
        [⟨"s", "g", "origA", "sumA", "lA", "u", ["k"], "rss", "", ""⟩,
         ⟨"s", "g", "origB", "sumB", "lB", "u", ["k"], "rss", "", ""⟩] =
      [⟨"s", "g", "origA", "sumA", "lA", "u", ["k"], "rss", "origA",
          "[Resumo não disponível]"⟩,
       ⟨"s", "g", "origA", "sumA", "lA", "u", ["k"], "rss", "origA",
          "[Resumo não disponível]"⟩,
       ⟨"s", "g", "origB", "sumB", "lB", "u", ["k"], "rss", "origB",
          "[Resumo não disponível]"⟩] ∧
    (summarise_articles
        ⟨fun _ => some [⟨some "T1", some "a sufficiently long summary ok"⟩,
                        ⟨some "T2", some "short"⟩],
         fun _ _ => none, fun _ _ => none⟩
        [⟨"s", "g", "origA", "sumA", "lA", "u", ["k"], "rss", "", ""⟩,
         ⟨"s", "g", "origB", "sumB", "lB", "u", ["k"], "rss", "", ""⟩]).length ≠ 2 :=
  ⟨by decide, by decide⟩

end Newsletter
